import Mathlib

/-!
Verification of the trajectory-trail core of `pl_gui`
(`src/dashboard/widgets/RobotTrajectoryWidget.py`).

The Python code is shallowly embedded:
* `deque(maxlen=cap)` becomes a `List` together with `dequeAppend`, which
  appends at the tail and drops from the head once the length exceeds `cap`;
* machine floats appearing in the source (`np.sqrt`, the division in
  `i / (num_interpolated + 1)`, `np.mean`, the `progress` ratios) are modelled
  by exact rational arithmetic followed by Python's `int(...)` truncation
  toward zero (`pyTruncDiv`).  For the integer-valued inputs these routines
  receive, the float computations in the source are exact at every branch
  point the claims depend on (in particular `np.sqrt(d2) > 5  ↔  d2 > 25` for
  integer `d2`, since float square roots are correctly rounded and monotone),
  so the rational model coincides with the float behaviour there;
* `time.time()` is an external clock, passed in explicitly as a `Nat`
  argument `now`;
* fields of the Python classes that no claim touches (cosmetic settings such
  as `trail_thickness`, `trail_fade`, `show_current_point`, the colour
  constants, `start_time`, `update_count`, `is_running`, the Qt label, timer
  and metric plumbing) are omitted from the state records.
-/

/-- Python `int(x)` applied to the exact rational `a / b` (`b : Nat`):
truncation toward zero. -/
def pyTruncDiv (a : Int) (b : Nat) : Int :=
  if 0 ≤ a then ((a.toNat / b : Nat) : Int) else -(((-a).toNat / b : Nat) : Int)

/-- The suffix of the last `n` elements of a list (Python `l[-n:]`). -/
def takeLast (n : Nat) (l : List α) : List α := l.drop (l.length - n)

/-- One `append` on a `collections.deque(maxlen=cap)`: the new element goes to
the tail and, if the length would exceed `cap`, the oldest elements are
dropped from the head. -/
def dequeAppend (cap : Nat) (l : List α) (a : α) : List α :=
  let l2 := l ++ [a]
  if cap < l2.length then l2.drop (l2.length - cap) else l2

/-- One element of the trail buffer, the Python 4-tuple
`(x, y, timestamp, is_break_start)` appended by `TrajectoryManager`. -/
structure PositionSample where
  x : Int
  y : Int
  timestamp : Nat
  isBreakStart : Bool
deriving DecidableEq, Repr

/-- Shorthand for the 4-tuple the Python code appends. -/
def mkSample (p : Int × Int) (now : Nat) (b : Bool) : PositionSample :=
  { x := p.1, y := p.2, timestamp := now, isBreakStart := b }

/-- Projection of a sample to its `(x, y)` point, as used by
`draw_smooth_trail` when it builds segments. -/
def samplePoint (s : PositionSample) : Int × Int := (s.x, s.y)

/-- State of `TrajectoryManager` (RobotTrajectoryWidget.py, lines 65-130),
restricted to the fields the trail logic reads or writes. -/
structure TrajectoryManager where
  trail_length : Nat
  trajectory_points : List PositionSample
  current_position : Option (Int × Int)
  last_position : Option (Int × Int)
  interpolate_motion : Bool
  trajectory_break_pending : Bool
deriving DecidableEq, Repr

/-- `TrajectoryManager.__init__(trail_length)`: empty bounded deque, both
positions unset, `interpolate_motion = True`, no break pending. -/
def TrajectoryManager.init (trail_length : Nat) : TrajectoryManager :=
  { trail_length := trail_length
    trajectory_points := []
    current_position := none
    last_position := none
    interpolate_motion := true
    trajectory_break_pending := false }

/-- Squared Euclidean distance between two integer points.  The source tests
`np.sqrt(d2) > 5`; for integer inputs this is exactly `d2 > 25`. -/
def distSq (sp ep : Int × Int) : Int :=
  (ep.1 - sp.1) * (ep.1 - sp.1) + (ep.2 - sp.2) * (ep.2 - sp.2)

/-- One interpolated coordinate
`int(start + (i / (n + 1)) * (end - start))`, computed as the exact rational
`((n+1)*start + i*(end-start)) / (n+1)` truncated toward zero.  For the
default `n = 3` the float expression in the source is exact, so the two
agree. -/
def interpCoord (s e : Int) (i n : Nat) : Int :=
  pyTruncDiv (((n : Int) + 1) * s + (i : Int) * (e - s)) (n + 1)

/-- The `num_interpolated` synthetic samples produced by the loop
`for i in range(1, num_interpolated + 1)` in `add_interpolated_points`,
all tagged `is_break_start = False`. -/
def interpolatedSamples (sp ep : Int × Int) (now : Nat) (n : Nat) :
    List PositionSample :=
  (List.range n).map (fun j =>
    mkSample (interpCoord sp.1 ep.1 (j + 1) n, interpCoord sp.2 ep.2 (j + 1) n)
      now false)

/-- `TrajectoryManager.add_interpolated_points(start_pos, end_pos,
num_interpolated)`: when the distance exceeds 5, append the interpolated
points one by one, then always append the destination, all tagged
`is_break_start = False`. -/
def TrajectoryManager.add_interpolated_points (m : TrajectoryManager)
    (sp ep : Int × Int) (now : Nat) (n : Nat) : TrajectoryManager :=
  let emitted :=
    (if 25 < distSq sp ep then interpolatedSamples sp ep now n else [])
      ++ [mkSample ep now false]
  { m with trajectory_points :=
      List.foldl (dequeAppend m.trail_length) m.trajectory_points emitted }

/-- `TrajectoryManager.update_position(position)`.  In the source the pending
flag is cleared only inside the `if` branch, but in the `else` branch it was
already `False`, so it is `False` after every call; the embedding sets it to
`False` unconditionally, which is extensionally identical.  The
`is_break_start` tag of a directly appended sample is
`self.last_position is None`, exactly as in line 116 of the source. -/
def TrajectoryManager.update_position (m : TrajectoryManager)
    (p : Int × Int) (now : Nat) : TrajectoryManager :=
  let lastp : Option (Int × Int) :=
    if m.trajectory_break_pending then none else m.current_position
  let m2 : TrajectoryManager :=
    { m with
      trajectory_break_pending := false
      last_position := lastp
      current_position := some p }
  match lastp with
  | some lp =>
      if m.interpolate_motion then
        m2.add_interpolated_points lp p now 3
      else
        let pts2 := dequeAppend m2.trail_length m2.trajectory_points
          (mkSample p now false)
        { m2 with trajectory_points := pts2 }
  | none =>
      let pts2 := dequeAppend m2.trail_length m2.trajectory_points
        (mkSample p now true)
      { m2 with trajectory_points := pts2 }

/-- `TrajectoryManager.break_trajectory()`: only raises the pending flag. -/
def TrajectoryManager.break_trajectory (m : TrajectoryManager) :
    TrajectoryManager :=
  { m with trajectory_break_pending := true }

/-- `TrajectoryManager.clear_trail()`: empties the buffer and unsets both
positions (the pending flag is not touched by the source). -/
def TrajectoryManager.clear_trail (m : TrajectoryManager) : TrajectoryManager :=
  { m with
    trajectory_points := []
    current_position := none
    last_position := none }

/-- `TrajectoryManager.get_trajectory_copy()`: a point-in-time copy of the
buffer contents (the snapshot handed to the renderer). -/
def TrajectoryManager.get_trajectory_copy (m : TrajectoryManager) :
    List PositionSample := m.trajectory_points

/-- Ghost function: the samples one `update_position` call appends to the
buffer (before eviction).  Depends only on the control fields, not on the
buffer itself. -/
def emittedSamples (m : TrajectoryManager) (p : Int × Int) (now : Nat) :
    List PositionSample :=
  match (if m.trajectory_break_pending then none else m.current_position) with
  | some lp =>
      if m.interpolate_motion then
        (if 25 < distSq lp p then interpolatedSamples lp p now 3 else [])
          ++ [mkSample p now false]
      else [mkSample p now false]
  | none => [mkSample p now true]

/-- A sequence of `update_position` calls on a freshly constructed manager
(each call carries its position and its clock reading). -/
def runUpdates (cap : Nat) (calls : List ((Int × Int) × Nat)) :
    TrajectoryManager :=
  calls.foldl (fun m c => m.update_position c.1 c.2) (TrajectoryManager.init cap)

/-- All samples a sequence of `update_position` calls appends, in insertion
order, before any eviction. -/
def emittedFrom (m : TrajectoryManager) :
    List ((Int × Int) × Nat) → List PositionSample
  | [] => []
  | c :: rest =>
      emittedSamples m c.1 c.2 ++ emittedFrom (m.update_position c.1 c.2) rest

def emittedRun (cap : Nat) (calls : List ((Int × Int) × Nat)) :
    List PositionSample :=
  emittedFrom (TrajectoryManager.init cap) calls

/-! ### The renderer `draw_smooth_trail` (lines 161-233) -/

/-- End of the segment-collection loop body and of the loop itself:
`if len(current_segment) > 1: segments.append(current_segment)`. -/
def buildSegFinalize (acc : List (List (Int × Int)))
    (cur : List (Int × Int)) : List (List (Int × Int)) :=
  if 1 < cur.length then acc ++ [cur] else acc

/-- The segment-collection loop of `draw_smooth_trail` (lines 171-185).  All
samples produced by `TrajectoryManager` are 4-tuples, so only the
`len(point_data) >= 4` branch of the source is reachable. -/
def buildSegLoop (acc : List (List (Int × Int))) (cur : List (Int × Int)) :
    List PositionSample → List (List (Int × Int))
  | [] => buildSegFinalize acc cur
  | s :: rest =>
      if s.isBreakStart ∧ cur ≠ [] then
        buildSegLoop (buildSegFinalize acc cur) [samplePoint s] rest
      else
        buildSegLoop acc (cur ++ [samplePoint s]) rest

def buildSegments (pts : List PositionSample) : List (List (Int × Int)) :=
  buildSegLoop [] [] pts

/-- Modelled from the spec: "partition the snapshot into contiguous segments
by splitting wherever a sample has `is_break_start=true` (except at the very
first sample)".  Spec-side definition, compared with `buildSegments`. -/
def splitGoSpec (cur : List PositionSample) :
    List PositionSample → List (List PositionSample)
  | [] => [cur]
  | s :: rest =>
      if s.isBreakStart then cur :: splitGoSpec [s] rest
      else splitGoSpec (cur ++ [s]) rest

def splitAtBreaksSpec : List PositionSample → List (List PositionSample)
  | [] => []
  | s :: rest => splitGoSpec [s] rest

/-- `int(np.mean(...))` over the x and over the y coordinates of a window:
the exact rational mean truncated toward zero. -/
def windowMean (w : List (Int × Int)) : Int × Int :=
  (pyTruncDiv ((w.map Prod.fst).sum) w.length,
   pyTruncDiv ((w.map Prod.snd).sum) w.length)

/-- Smoothed point `i` (lines 195-199): the mean of the slice
`segment_points[max(0, i - kernel_size + 1) : i + 1]` with
`kernel_size = 3`; `max(0, i - 2)` is Nat subtraction `i - 2`. -/
def smoothPoint (seg : List (Int × Int)) (i : Nat) : Int × Int :=
  windowMean ((seg.drop (i - 2)).take (i + 1 - (i - 2)))

def smoothSeg (seg : List (Int × Int)) : List (Int × Int) :=
  (List.range seg.length).map (smoothPoint seg)

/-- Colour of edge `i` when `progress = (i+1)/total < 0.3`
(`fade = progress/0.3`; components `int(200*fade), int(100*fade),
int(50*fade)` as exact rationals). -/
def bandColor0 (i total : Nat) : Nat × Nat × Nat :=
  ((2000 * (i + 1)) / (3 * total),
   (1000 * (i + 1)) / (3 * total),
   (500 * (i + 1)) / (3 * total))

/-- Colour of edge `i` when `0.3 ≤ progress < 0.7`
(`fade = (progress - 0.3)/0.4`; components `int(156 + 100*fade),
int(39 + 50*fade), int(176 + 79*fade)`). -/
def bandColor1 (i total : Nat) : Nat × Nat × Nat :=
  (156 + (1000 * (i + 1) - 300 * total) / (4 * total),
   39 + (500 * (i + 1) - 150 * total) / (4 * total),
   176 + (790 * (i + 1) - 237 * total) / (4 * total))

/-- Colour of edge `i` when `0.7 ≤ progress`
(`fade = (progress - 0.7)/0.3`; components `int(255*fade), int(89*fade),
int(255*fade)`). -/
def bandColor2 (i total : Nat) : Nat × Nat × Nat :=
  ((2550 * (i + 1) - 1785 * total) / (3 * total),
   (890 * (i + 1) - 623 * total) / (3 * total),
   (2550 * (i + 1) - 1785 * total) / (3 * total))

/-- Colour of the edge from smoothed point `i` to `i+1` (lines 203-215).
`progress = (i+1)/total`; the float comparisons `progress < 0.3` and
`progress < 0.7` are the exact rational comparisons `10*(i+1) < 3*total`
and `10*(i+1) < 7*total`. -/
def edgeColor (i total : Nat) : Nat × Nat × Nat :=
  if 10 * (i + 1) < 3 * total then bandColor0 i total
  else if 10 * (i + 1) < 7 * total then bandColor1 i total
  else bandColor2 i total

/-- Which of the three colour bands edge `i` falls in. -/
def bandIndex (i total : Nat) : Nat :=
  if 10 * (i + 1) < 3 * total then 0
  else if 10 * (i + 1) < 7 * total then 1
  else 2

/-- `thickness = max(1, int(2 + progress * 4))` (line 217), with
`int(2 + 4*(i+1)/total) = (2*total + 4*(i+1)) / total` (all quantities
nonnegative, so truncation is floor). -/
def edgeThickness (i total : Nat) : Nat :=
  max 1 ((2 * total + 4 * (i + 1)) / total)

/-- One `cv2.line` invocation. -/
structure DrawCall where
  p1 : Int × Int
  p2 : Int × Int
  color : Nat × Nat × Nat
  thickness : Nat
deriving DecidableEq, Repr

/-- The per-line bounds check of lines 221-222 and 230-231. -/
def inBounds (W H : Int) (p : Int × Int) : Bool :=
  decide (0 ≤ p.1) && decide (p.1 < W) && decide (0 ≤ p.2) && decide (p.2 < H)

/-- The gradient pass (lines 203-223): one `cv2.line` per in-bounds pair of
consecutive smoothed points. -/
def segMainCalls (W H : Int) (sm : List (Int × Int)) : List DrawCall :=
  (List.range (sm.length - 1)).filterMap (fun i =>
    match sm.get? i, sm.get? (i + 1) with
    | some q1, some q2 =>
        if inBounds W H q1 && inBounds W H q2 then
          some { p1 := q1, p2 := q2, color := edgeColor i sm.length,
                 thickness := edgeThickness i sm.length }
        else none
    | _, _ => none)

/-- The trailing-edge highlight pass (lines 225-233): when more than 5
smoothed points exist, the last 5 are redrawn with a wide halo stroke and a
narrow core stroke per in-bounds pair. -/
def segHighlightCalls (W H : Int) (sm : List (Int × Int)) : List DrawCall :=
  if 5 < sm.length then
    let recent := takeLast 5 sm
    ((List.range (recent.length - 1)).map (fun i =>
      match recent.get? i, recent.get? (i + 1) with
      | some q1, some q2 =>
          if inBounds W H q1 && inBounds W H q2 then
            [{ p1 := q1, p2 := q2, color := (255, 200, 255), thickness := 6 },
             { p1 := q1, p2 := q2, color := (255, 100, 255), thickness := 2 }]
          else []
      | _, _ => [])).flatten
  else []

/-- All `cv2.line` calls made for one raw segment (lines 187-233), in
programme order. -/
def drawSegCalls (W H : Int) (seg : List (Int × Int)) : List DrawCall :=
  if seg.length < 2 then []
  else segMainCalls W H (smoothSeg seg) ++ segHighlightCalls W H (smoothSeg seg)

/-- `draw_smooth_trail(image, trajectory_points_with_breaks)` as the ordered
list of `cv2.line` calls it performs on the image. -/
def draw_smooth_trail (W H : Int) (pts : List PositionSample) :
    List DrawCall :=
  if pts.length < 2 then []
  else ((buildSegments pts).map (drawSegCalls W H)).flatten

/-! ### The widget boundary (`RobotTrajectoryWidget`, lines 249-399) -/

/-- Python `int(v)` on a real number `v`: truncation toward zero. -/
def pyInt (q : ℚ) : Int := if 0 ≤ q then ⌊q⌋ else ⌈q⌉

/-- State of `RobotTrajectoryWidget`, restricted to what the claims touch.
`has_base_frame` models whether `self.base_frame is None`. -/
structure RobotTrajectoryWidget where
  image_width : Int
  image_height : Int
  has_base_frame : Bool
  drawing_enabled : Bool
  trajectory_manager : TrajectoryManager
deriving DecidableEq, Repr

/-- `update_trajectory_point(message)` (lines 339-344): `None` is a no-op;
otherwise the coordinates are read with `message.get("x", 0)` /
`message.get("y", 0)` (missing keys default to `0`) and coerced with
`int(...)` before being handed to `update_position`.  A message is modelled
as its optional `x` and `y` values (arbitrary Python reals, hence `ℚ`). -/
def RobotTrajectoryWidget.update_trajectory_point (w : RobotTrajectoryWidget)
    (message : Option (Option ℚ × Option ℚ)) (now : Nat) :
    RobotTrajectoryWidget :=
  match message with
  | none => w
  | some (mx, my) =>
      let mgr := w.trajectory_manager.update_position
        (pyInt (mx.getD 0), pyInt (my.getD 0)) now
      { w with trajectory_manager := mgr }

def RobotTrajectoryWidget.break_trajectory (w : RobotTrajectoryWidget) :
    RobotTrajectoryWidget :=
  { w with trajectory_manager := w.trajectory_manager.break_trajectory }

def RobotTrajectoryWidget.enable_drawing (w : RobotTrajectoryWidget) :
    RobotTrajectoryWidget :=
  { w with drawing_enabled := true }

/-- `disable_drawing` (lines 366-368): stop drawing and clear the trail. -/
def RobotTrajectoryWidget.disable_drawing (w : RobotTrajectoryWidget) :
    RobotTrajectoryWidget :=
  { w with
    drawing_enabled := false
    trajectory_manager := w.trajectory_manager.clear_trail }

/-- Python exception classes relevant to `update_display`'s
`except (IndexError, ValueError)` handler; `otherError` stands for any other
exception class (e.g. `cv2.error`). -/
inductive PyError where
  | indexError
  | valueError
  | otherError
deriving DecidableEq, Repr

def isCaught : PyError → Bool
  | .indexError => true
  | .valueError => true
  | .otherError => false

/-- Observable outcome of one `update_display` tick: whether the label was
updated with a fresh frame, which `cv2.line` calls reached the image, and
which exception (if any) escaped `update_display`. -/
structure DisplayOutcome where
  frameShown : Bool
  drawnCalls : List DrawCall
  raised : Option PyError
deriving DecidableEq, Repr

/-- `update_display` (lines 374-391) with a fault oracle.  The drawing
primitive (`cv2.line`) is external to the repository, so a possible failure
is injected as `fault = some (k, e)`: the `k`-th line call raises `e` (no
fault is injected when `k` is out of range).  The image is mutated in place,
so calls before the failing one stay composited.  The source wraps the single
`draw_smooth_trail` call in `try ... except (IndexError, ValueError): pass`,
so a caught exception abandons the rest of the trail for this tick but the
tick completes; an uncaught exception escapes before the label update. -/
def RobotTrajectoryWidget.update_display (w : RobotTrajectoryWidget)
    (fault : Option (Nat × PyError)) : DisplayOutcome :=
  if w.has_base_frame = false then
    { frameShown := false, drawnCalls := [], raised := none }
  else
    let pts := w.trajectory_manager.get_trajectory_copy
    if w.drawing_enabled && !pts.isEmpty then
      let calls := draw_smooth_trail w.image_width w.image_height pts
      match fault with
      | some (k, e) =>
          if k < calls.length then
            if isCaught e then
              { frameShown := true, drawnCalls := calls.take k, raised := none }
            else
              { frameShown := false, drawnCalls := calls.take k,
                raised := some e }
          else { frameShown := true, drawnCalls := calls, raised := none }
      | none => { frameShown := true, drawnCalls := calls, raised := none }
    else { frameShown := true, drawnCalls := [], raised := none }

/-! ### Concrete inputs used by witnesses and counterexamples -/

/-- Three position updates with consecutive clock readings. -/
def demoCalls : List ((Int × Int) × Nat) :=
  [((0, 0), 0), ((1, 1), 1), ((2, 2), 2)]

/-- A snapshot with a mid-stream break: two two-sample segments. -/
def demoPts : List PositionSample :=
  [mkSample (10, 10) 0 true, mkSample (12, 10) 1 false,
   mkSample (100, 100) 2 true, mkSample (102, 100) 3 false]

/-- A manager whose buffer is `demoPts`, produced by the public operations:
two close updates, a break request, then two more close updates. -/
def demoManager : TrajectoryManager :=
  (((((TrajectoryManager.init 100).update_position (10, 10) 0).update_position
      (12, 10) 1).break_trajectory).update_position (100, 100) 2).update_position
    (102, 100) 3

/-- A widget showing a background frame with drawing enabled, holding
`demoManager`'s two-segment trail. -/
def demoWidget : RobotTrajectoryWidget :=
  { image_width := 640
    image_height := 360
    has_base_frame := true
    drawing_enabled := true
    trajectory_manager := demoManager }

/-- The gradient-pass call the renderer makes for the second demo segment. -/
def demoLostCall : DrawCall :=
  { p1 := (100, 100), p2 := (101, 100), color := (206, 64, 215), thickness := 4 }

/-- The gradient-pass call the renderer makes for the first demo segment:
the very first `cv2.line` call of a demo tick. -/
def demoFirstCall : DrawCall :=
  { p1 := (10, 10), p2 := (11, 10), color := (206, 64, 215), thickness := 4 }

/-- A widget with no background frame set (`base_frame is None`). -/
def demoNoFrameWidget : RobotTrajectoryWidget :=
  { image_width := 640
    image_height := 360
    has_base_frame := false
    drawing_enabled := true
    trajectory_manager := TrajectoryManager.init 100 }

/-- A widget whose trail holds a single sample. -/
def demoShortWidget : RobotTrajectoryWidget :=
  { image_width := 640
    image_height := 360
    has_base_frame := true
    drawing_enabled := true
    trajectory_manager := (TrajectoryManager.init 100).update_position (1, 1) 0 }

/-- A four-point collinear raw segment. -/
def demoSeg : List (Int × Int) := [(0, 0), (10, 0), (20, 0), (30, 0)]

/-! ## Helper lemmas -/

theorem pyTruncDiv_one (a : Int) : pyTruncDiv a 1 = a := by
  unfold pyTruncDiv; split <;> omega

/-- Lower bound for truncation toward zero with denominator 4: if
`4 * q ≤ a` then `q ≤ trunc (a / 4)`. -/
theorem le_pyTruncDiv_four {a q : Int} (h : 4 * q ≤ a) : q ≤ pyTruncDiv a 4 := by
  unfold pyTruncDiv; split <;> omega

/-- Upper bound for truncation toward zero with denominator 4: if
`a ≤ 4 * q` then `trunc (a / 4) ≤ q`. -/
theorem pyTruncDiv_le_four {a q : Int} (h : a ≤ 4 * q) : pyTruncDiv a 4 ≤ q := by
  unfold pyTruncDiv; split <;> omega

theorem length_takeLast (n : Nat) (l : List α) :
    (takeLast n l).length = min n l.length := by
  simp only [takeLast, List.length_drop]; omega

theorem takeLast_of_length_le {n : Nat} {l : List α} (h : l.length ≤ n) :
    takeLast n l = l := by
  simp [takeLast, Nat.sub_eq_zero_of_le h]

theorem takeLast_takeLast {m n : Nat} (l : List α) (h : m ≤ n) :
    takeLast m (takeLast n l) = takeLast m l := by
  simp only [takeLast, List.length_drop, List.drop_drop]
  congr 1
  omega

theorem takeLast_append (n : Nat) (l xs : List α) :
    takeLast n (l ++ xs) = takeLast (n - xs.length) l ++ takeLast n xs := by
  unfold takeLast
  rw [List.drop_append_eq_append_drop, List.length_append]
  by_cases h : xs.length ≤ n
  · have h1 : l.length + xs.length - n = l.length - (n - xs.length) := by omega
    have h2 : l.length + xs.length - n - l.length = xs.length - n := by omega
    rw [h2, h1]
  · have h2 : l.length + xs.length - n - l.length = xs.length - n := by omega
    rw [h2]
    congr 1
    rw [List.drop_of_length_le (by omega), List.drop_of_length_le (by omega)]

theorem takeLast_takeLast_append (n : Nat) (l xs : List α) :
    takeLast n (takeLast n l ++ xs) = takeLast n (l ++ xs) := by
  rw [takeLast_append, takeLast_append, takeLast_takeLast l (Nat.sub_le n xs.length)]

theorem dequeAppend_eq_takeLast (cap : Nat) (l : List α) (a : α) :
    dequeAppend cap l a = takeLast cap (l ++ [a]) := by
  simp only [dequeAppend, takeLast]
  by_cases h : cap < (l ++ [a]).length
  · rw [if_pos h]
  · rw [if_neg h, Nat.sub_eq_zero_of_le (le_of_not_lt h), List.drop_zero]

theorem foldl_dequeAppend (cap : Nat) :
    ∀ (es : List α) (acc l : List α), l = takeLast cap acc →
      List.foldl (dequeAppend cap) l es = takeLast cap (acc ++ es)
  | [], acc, l, h => by simpa using h
  | e :: es, acc, l, h => by
    have hstep : dequeAppend cap l e = takeLast cap (acc ++ [e]) := by
      rw [h, dequeAppend_eq_takeLast, takeLast_takeLast_append]
    have := foldl_dequeAppend cap es (acc ++ [e]) (dequeAppend cap l e) hstep
    simpa [List.foldl_cons] using this

theorem update_position_points (m : TrajectoryManager) (p : Int × Int)
    (now : Nat) :
    (m.update_position p now).trajectory_points
      = List.foldl (dequeAppend m.trail_length) m.trajectory_points
          (emittedSamples m p now) := by
  unfold TrajectoryManager.update_position emittedSamples
  by_cases hb : m.trajectory_break_pending
  · simp [hb]
  · cases hc : m.current_position with
    | none => simp [hb, hc]
    | some lp =>
        by_cases hi : m.interpolate_motion <;>
          simp [hb, hc, hi, TrajectoryManager.add_interpolated_points]

theorem update_position_control (m : TrajectoryManager) (p : Int × Int)
    (now : Nat) :
    (m.update_position p now).trail_length = m.trail_length
    ∧ (m.update_position p now).interpolate_motion = m.interpolate_motion
    ∧ (m.update_position p now).trajectory_break_pending = false
    ∧ (m.update_position p now).current_position = some p
    ∧ (m.update_position p now).last_position
        = (if m.trajectory_break_pending then none else m.current_position) := by
  unfold TrajectoryManager.update_position
  by_cases hb : m.trajectory_break_pending
  · simp [hb]
  · cases hc : m.current_position with
    | none => simp [hb, hc]
    | some lp =>
        by_cases hi : m.interpolate_motion <;>
          simp [hb, hc, hi, TrajectoryManager.add_interpolated_points]

theorem run_invariant :
    ∀ (calls : List ((Int × Int) × Nat)) (m : TrajectoryManager)
      (acc : List PositionSample),
      m.trajectory_points = takeLast m.trail_length acc →
      (calls.foldl (fun m c => m.update_position c.1 c.2) m).trajectory_points
          = takeLast m.trail_length (acc ++ emittedFrom m calls)
      ∧ (calls.foldl (fun m c => m.update_position c.1 c.2) m).trail_length
          = m.trail_length
  | [], m, acc, h => by simpa [emittedFrom] using h
  | c :: rest, m, acc, h => by
    have hcap := (update_position_control m c.1 c.2).1
    have hpts : (m.update_position c.1 c.2).trajectory_points
        = takeLast m.trail_length (acc ++ emittedSamples m c.1 c.2) := by
      rw [update_position_points]
      exact foldl_dequeAppend _ _ _ _ h
    have ih := run_invariant rest (m.update_position c.1 c.2)
      (acc ++ emittedSamples m c.1 c.2) (by rw [hcap]; exact hpts)
    rw [List.foldl_cons]
    refine ⟨?_, ih.2.trans hcap⟩
    rw [ih.1, hcap, emittedFrom, List.append_assoc]

/-- C1: the trail buffer is a bounded FIFO.  For every sequence of
`update_position` calls starting from a fresh manager, the snapshot equals
the suffix of the last `cap` appended samples (interpolated points included)
in insertion order; hence the length never exceeds the capacity, equals the
number of appended samples while that number is at most the capacity, and
stays exactly at the capacity afterwards, oldest samples evicted first. -/
theorem trajectory_C1 (cap : Nat) (calls : List ((Int × Int) × Nat)) :
    (runUpdates cap calls).get_trajectory_copy
        = takeLast cap (emittedRun cap calls)
    ∧ (runUpdates cap calls).get_trajectory_copy.length ≤ cap
    ∧ ((emittedRun cap calls).length ≤ cap →
        (runUpdates cap calls).get_trajectory_copy = emittedRun cap calls)
    ∧ (cap ≤ (emittedRun cap calls).length →
        (runUpdates cap calls).get_trajectory_copy.length = cap) := by
  have h := run_invariant calls (TrajectoryManager.init cap) []
    (by simp [TrajectoryManager.init, takeLast])
  have main : (runUpdates cap calls).get_trajectory_copy
      = takeLast cap (emittedRun cap calls) := by
    simpa [runUpdates, emittedRun, TrajectoryManager.get_trajectory_copy,
      TrajectoryManager.init] using h.1
  refine ⟨main, ?_, ?_, ?_⟩
  · rw [main, length_takeLast]; omega
  · intro hle; rw [main]; exact takeLast_of_length_le hle
  · intro hge; rw [main, length_takeLast]; omega

theorem trajectory_C1_witness :
    2 ≤ (emittedRun 2 demoCalls).length
      ∧ (runUpdates 2 demoCalls).get_trajectory_copy.length = 2 :=
  ⟨by decide, (trajectory_C1 2 demoCalls).2.2.2 (by decide)⟩

/-- C3: a break request is deferred and edge-triggered.  `break_trajectory`
only raises the pending flag; the next `update_position` treats
`last_position` as unset (it behaves exactly like `update_position` on a
manager whose `current_position` is unset and whose flag is down), clears the
flag, and appends exactly one sample tagged `is_break_start = true` with no
interpolated points. -/
theorem trajectory_C3 (m : TrajectoryManager) (p : Int × Int) (now : Nat) :
    m.break_trajectory.trajectory_points = m.trajectory_points
    ∧ m.break_trajectory.current_position = m.current_position
    ∧ m.break_trajectory.last_position = m.last_position
    ∧ m.break_trajectory.trail_length = m.trail_length
    ∧ m.break_trajectory.interpolate_motion = m.interpolate_motion
    ∧ m.break_trajectory.trajectory_break_pending = true
    ∧ (m.break_trajectory.update_position p now).trajectory_points
        = dequeAppend m.trail_length m.trajectory_points (mkSample p now true)
    ∧ (m.break_trajectory.update_position p now).trajectory_break_pending
        = false
    ∧ (m.break_trajectory.update_position p now).last_position = none
    ∧ (m.break_trajectory.update_position p now).current_position = some p
    ∧ m.break_trajectory.update_position p now
        = TrajectoryManager.update_position
            ⟨m.trail_length, m.trajectory_points, none, m.last_position,
              m.interpolate_motion, false⟩ p now := by
  cases m
  simp [TrajectoryManager.break_trajectory, TrajectoryManager.update_position]

/-- C8: `clear_trail` empties the buffer and unsets both positions, so a
snapshot right after it is empty; the first `update_position` after a clear
appends one sample tagged `is_break_start = true`; `disable_drawing`
performs this same clear while disabling drawing. -/
theorem trajectory_C8 (m : TrajectoryManager) (p : Int × Int) (now : Nat)
    (w : RobotTrajectoryWidget) :
    m.clear_trail.trajectory_points = []
    ∧ m.clear_trail.current_position = none
    ∧ m.clear_trail.last_position = none
    ∧ m.clear_trail.get_trajectory_copy = []
    ∧ (1 ≤ m.trail_length →
        (m.clear_trail.update_position p now).trajectory_points
          = [mkSample p now true])
    ∧ w.disable_drawing.drawing_enabled = false
    ∧ w.disable_drawing.trajectory_manager = w.trajectory_manager.clear_trail := by
  refine ⟨rfl, rfl, rfl, rfl, ?_, rfl, rfl⟩
  intro hcap
  unfold TrajectoryManager.update_position
  by_cases hb : m.trajectory_break_pending <;>
    simp [hb, TrajectoryManager.clear_trail, dequeAppend,
      Nat.not_lt.mpr hcap]

theorem trajectory_C8_witness :
    ((TrajectoryManager.init 100).clear_trail.update_position (5, 6) 9).trajectory_points
      = [mkSample (5, 6) 9 true] :=
  (trajectory_C8 (TrajectoryManager.init 100) (5, 6) 9 demoWidget).2.2.2.2.1
    (by decide)

/-- C10: at the widget boundary, `update_trajectory_point None` is a no-op;
for a dict message the missing coordinates default to `0` and both
coordinates pass through Python `int(...)` (truncation toward zero, the
identity on integers) before reaching `update_position`, so every sample
entering the buffer through this entry point has integer coordinates. -/
theorem trajectory_C10 (w : RobotTrajectoryWidget) (now : Nat)
    (mx my : Option ℚ) (n : Int) :
    w.update_trajectory_point none now = w
    ∧ (w.update_trajectory_point (some (mx, my)) now).trajectory_manager
        = w.trajectory_manager.update_position
            (pyInt (mx.getD 0), pyInt (my.getD 0)) now
    ∧ (w.update_trajectory_point (some (mx, my)) now).drawing_enabled
        = w.drawing_enabled
    ∧ (w.update_trajectory_point (some (mx, my)) now).has_base_frame
        = w.has_base_frame
    ∧ (w.update_trajectory_point (some (none, none)) now).trajectory_manager
        = w.trajectory_manager.update_position (0, 0) now
    ∧ pyInt (n : ℚ) = n := by
  refine ⟨rfl, rfl, rfl, rfl, ?_, ?_⟩
  · simp [RobotTrajectoryWidget.update_trajectory_point, pyInt]
  · unfold pyInt
    split <;> simp

theorem interpCoord_as_four (s e : Int) (j : Nat) :
    interpCoord s e j 3 = pyTruncDiv (4 * s + (j : Int) * (e - s)) 4 := by
  norm_num [interpCoord]

theorem interpCoord_between (s e : Int) (j : Nat) (h1 : 1 ≤ j) (h2 : j ≤ 3) :
    min s e ≤ interpCoord s e j 3 ∧ interpCoord s e j 3 ≤ max s e := by
  rw [interpCoord_as_four]
  have hj1 : (1 : Int) ≤ (j : Int) := by exact_mod_cast h1
  have hj3 : (j : Int) ≤ 3 := by exact_mod_cast h2
  rcases le_total s e with hse | hse
  · have hle : min s e = s := min_eq_left hse
    have hge : max s e = e := max_eq_right hse
    rw [hle, hge]
    constructor
    · apply le_pyTruncDiv_four
      nlinarith
    · apply pyTruncDiv_le_four
      nlinarith
  · have hle : min s e = e := min_eq_right hse
    have hge : max s e = s := max_eq_left hse
    rw [hle, hge]
    constructor
    · apply le_pyTruncDiv_four
      nlinarith
    · apply pyTruncDiv_le_four
      nlinarith

theorem interpCoord_strict (s e : Int) (j : Nat) (h1 : 1 ≤ j) (h2 : j ≤ 3)
    (hd : 4 ≤ (e - s).natAbs) :
    min s e < interpCoord s e j 3 ∧ interpCoord s e j 3 < max s e := by
  rw [interpCoord_as_four]
  have hj1 : (1 : Int) ≤ (j : Int) := by exact_mod_cast h1
  have hj3 : (j : Int) ≤ 3 := by exact_mod_cast h2
  have hd4 : 4 ≤ e - s ∨ e - s ≤ -4 := by omega
  rcases hd4 with hd4 | hd4
  · have hle : min s e = s := min_eq_left (by omega)
    have hge : max s e = e := max_eq_right (by omega)
    rw [hle, hge]
    constructor
    · have : s + 1 ≤ pyTruncDiv (4 * s + (j : Int) * (e - s)) 4 := by
        apply le_pyTruncDiv_four
        nlinarith
      omega
    · have : pyTruncDiv (4 * s + (j : Int) * (e - s)) 4 ≤ e - 1 := by
        apply pyTruncDiv_le_four
        nlinarith
      omega
  · have hle : min s e = e := min_eq_right (by omega)
    have hge : max s e = s := max_eq_left (by omega)
    rw [hle, hge]
    constructor
    · have : e + 1 ≤ pyTruncDiv (4 * s + (j : Int) * (e - s)) 4 := by
        apply le_pyTruncDiv_four
        nlinarith
      omega
    · have : pyTruncDiv (4 * s + (j : Int) * (e - s)) 4 ≤ s - 1 := by
        apply pyTruncDiv_le_four
        nlinarith
      omega

theorem distSq_large {sp ep : Int × Int} (h : 25 < distSq sp ep) :
    4 ≤ (ep.1 - sp.1).natAbs ∨ 4 ≤ (ep.2 - sp.2).natAbs := by
  by_contra hc
  push_neg at hc
  obtain ⟨h1, h2⟩ := hc
  unfold distSq at h
  have a1 : -3 ≤ ep.1 - sp.1 := by omega
  have a2 : ep.1 - sp.1 ≤ 3 := by omega
  have b1 : -3 ≤ ep.2 - sp.2 := by omega
  have b2 : ep.2 - sp.2 ≤ 3 := by omega
  nlinarith [mul_nonneg (by omega : (0:Int) ≤ 3 - (ep.1 - sp.1))
      (by omega : (0:Int) ≤ 3 + (ep.1 - sp.1)),
    mul_nonneg (by omega : (0:Int) ≤ 3 - (ep.2 - sp.2))
      (by omega : (0:Int) ≤ 3 + (ep.2 - sp.2))]

/-- C2: when a previous position exists and interpolation is enabled,
`add_interpolated_points` appends interpolated points only when the Euclidean
distance exceeds 5 (squared distance over 25): below or at the threshold only
the destination is appended; above it, exactly 3 evenly spaced points strictly
between the endpoints are appended, followed by the destination, all tagged
`is_break_start = false`; in particular for `last = (0,0)`, `next = (100,0)`
the appended samples are `(25,0), (50,0), (75,0), (100,0)` with strictly
increasing x coordinates. -/
theorem trajectory_C2 :
    (∀ (m : TrajectoryManager) (sp ep : Int × Int) (now : Nat),
      distSq sp ep ≤ 25 →
      m.trajectory_points.length + 1 ≤ m.trail_length →
      (m.add_interpolated_points sp ep now 3).trajectory_points
        = m.trajectory_points ++ [mkSample ep now false])
    ∧ (∀ (m : TrajectoryManager) (sp ep : Int × Int) (now : Nat),
      25 < distSq sp ep →
      m.trajectory_points.length + 4 ≤ m.trail_length →
      (m.add_interpolated_points sp ep now 3).trajectory_points
        = m.trajectory_points ++ interpolatedSamples sp ep now 3
            ++ [mkSample ep now false])
    ∧ (∀ (sp ep : Int × Int) (now : Nat),
        (interpolatedSamples sp ep now 3).length = 3)
    ∧ (∀ (sp ep : Int × Int) (now : Nat), 25 < distSq sp ep →
        ∀ s ∈ interpolatedSamples sp ep now 3,
          s.isBreakStart = false
          ∧ (s.x, s.y) ≠ sp ∧ (s.x, s.y) ≠ ep
          ∧ min sp.1 ep.1 ≤ s.x ∧ s.x ≤ max sp.1 ep.1
          ∧ min sp.2 ep.2 ≤ s.y ∧ s.y ≤ max sp.2 ep.2)
    ∧ (∀ now : Nat,
        ((TrajectoryManager.init 100).add_interpolated_points (0, 0) (100, 0)
            now 3).trajectory_points
          = [mkSample (25, 0) now false, mkSample (50, 0) now false,
             mkSample (75, 0) now false, mkSample (100, 0) now false]) := by
  have hlen : ∀ (sp ep : Int × Int) (now : Nat),
      (interpolatedSamples sp ep now 3).length = 3 := by
    intro sp ep now
    simp [interpolatedSamples]
  refine ⟨?_, ?_, hlen, ?_, ?_⟩
  · intro m sp ep now hd hcap
    simp only [TrajectoryManager.add_interpolated_points,
      if_neg (show ¬25 < distSq sp ep by omega), List.nil_append]
    rw [foldl_dequeAppend m.trail_length _ m.trajectory_points m.trajectory_points
      (takeLast_of_length_le (by omega)).symm]
    exact takeLast_of_length_le (by simp; omega)
  · intro m sp ep now hd hcap
    simp only [TrajectoryManager.add_interpolated_points, if_pos hd]
    rw [foldl_dequeAppend m.trail_length _ m.trajectory_points m.trajectory_points
      (takeLast_of_length_le (by omega)).symm]
    rw [← List.append_assoc]
    exact takeLast_of_length_le (by simp [hlen sp ep now]; omega)
  · intro sp ep now hd s hs
    unfold interpolatedSamples at hs
    rw [List.mem_map] at hs
    obtain ⟨j, hj, rfl⟩ := hs
    rw [List.mem_range] at hj
    have h1 : 1 ≤ j + 1 := by omega
    have h2 : j + 1 ≤ 3 := by omega
    have hbx := interpCoord_between sp.1 ep.1 (j + 1) h1 h2
    have hby := interpCoord_between sp.2 ep.2 (j + 1) h1 h2
    refine ⟨rfl, ?_, ?_, hbx.1, hbx.2, hby.1, hby.2⟩
    · rcases distSq_large hd with hco | hco
      · have hsx := interpCoord_strict sp.1 ep.1 (j + 1) h1 h2 hco
        intro hcon
        have : interpCoord sp.1 ep.1 (j + 1) 3 = sp.1 := congrArg Prod.fst hcon
        simp [mkSample] at this
        omega
      · have hsy := interpCoord_strict sp.2 ep.2 (j + 1) h1 h2 hco
        intro hcon
        have : interpCoord sp.2 ep.2 (j + 1) 3 = sp.2 := congrArg Prod.snd hcon
        simp [mkSample] at this
        omega
    · rcases distSq_large hd with hco | hco
      · have hsx := interpCoord_strict sp.1 ep.1 (j + 1) h1 h2 hco
        intro hcon
        have : interpCoord sp.1 ep.1 (j + 1) 3 = ep.1 := congrArg Prod.fst hcon
        simp [mkSample] at this
        omega
      · have hsy := interpCoord_strict sp.2 ep.2 (j + 1) h1 h2 hco
        intro hcon
        have : interpCoord sp.2 ep.2 (j + 1) 3 = ep.2 := congrArg Prod.snd hcon
        simp [mkSample] at this
        omega
  · intro now
    rfl

theorem trajectory_C2_witness :
    ((TrajectoryManager.init 100).add_interpolated_points (0, 0) (3, 4) 5
        3).trajectory_points
      = [mkSample (3, 4) 5 false]
    ∧ ((TrajectoryManager.init 100).add_interpolated_points (0, 0) (0, 100) 6
        3).trajectory_points
      = [mkSample (0, 25) 6 false, mkSample (0, 50) 6 false,
         mkSample (0, 75) 6 false, mkSample (0, 100) 6 false] :=
  ⟨trajectory_C2.1 (TrajectoryManager.init 100) (0, 0) (3, 4) 5
      (by decide) (by decide),
   by
    rw [trajectory_C2.2.1 (TrajectoryManager.init 100) (0, 0) (0, 100) 6
      (by decide) (by decide)]
    decide⟩

theorem splitGoSpec_flatten :
    ∀ (l cur : List PositionSample), (splitGoSpec cur l).flatten = cur ++ l
  | [], cur => by simp [splitGoSpec]
  | p :: rest, cur => by
    by_cases hb : p.isBreakStart = true
    · simp [splitGoSpec, hb, splitGoSpec_flatten rest [p]]
    · simp [splitGoSpec, hb, splitGoSpec_flatten rest (cur ++ [p])]

theorem splitGoSpec_ne_nil :
    ∀ (l cur : List PositionSample), cur ≠ [] → ∀ g ∈ splitGoSpec cur l, g ≠ []
  | [], cur => by
    intro hc g hg
    simp [splitGoSpec] at hg
    exact hg ▸ hc
  | p :: rest, cur => by
    intro hc g hg
    by_cases hb : p.isBreakStart = true
    · simp only [splitGoSpec, hb, if_true, List.mem_cons] at hg
      rcases hg with rfl | hg
      · exact hc
      · exact splitGoSpec_ne_nil rest [p] (by simp) g hg
    · simp only [splitGoSpec, hb, if_false] at hg
      exact splitGoSpec_ne_nil rest (cur ++ [p]) (by simp) g hg

theorem splitGoSpec_tail_nonbreak :
    ∀ (l cur : List PositionSample),
      (∀ s ∈ cur.tail, s.isBreakStart = false) →
      ∀ g ∈ splitGoSpec cur l, ∀ s ∈ g.tail, s.isBreakStart = false
  | [], cur => by
    intro hcur g hg
    simp [splitGoSpec] at hg
    exact hg ▸ hcur
  | p :: rest, cur => by
    intro hcur g hg
    by_cases hb : p.isBreakStart = true
    · simp only [splitGoSpec, hb, if_true, List.mem_cons] at hg
      rcases hg with rfl | hg
      · exact hcur
      · exact splitGoSpec_tail_nonbreak rest [p] (by simp) g hg
    · simp only [splitGoSpec, hb, if_false] at hg
      refine splitGoSpec_tail_nonbreak rest (cur ++ [p]) ?_ g hg
      have hp : p.isBreakStart = false := by simpa using hb
      intro s hs
      cases cur with
      | nil => simp at hs
      | cons c cs =>
          simp only [List.cons_append, List.tail_cons, List.mem_append,
            List.mem_singleton] at hs
          rcases hs with hs | rfl
          · exact hcur s (by simpa using hs)
          · exact hp

theorem splitGoSpec_heads_break :
    ∀ (l cur : List PositionSample) (s0 : PositionSample)
      (t0 : List PositionSample), cur = s0 :: t0 → s0.isBreakStart = true →
      ∀ g ∈ splitGoSpec cur l, ∃ s t, g = s :: t ∧ s.isBreakStart = true
  | [], cur, s0, t0 => by
    intro hcur hs0 g hg
    simp [splitGoSpec] at hg
    exact ⟨s0, t0, hg ▸ hcur, hs0⟩
  | p :: rest, cur, s0, t0 => by
    intro hcur hs0 g hg
    by_cases hb : p.isBreakStart = true
    · simp only [splitGoSpec, hb, if_true, List.mem_cons] at hg
      rcases hg with rfl | hg
      · exact ⟨s0, t0, hcur, hs0⟩
      · exact splitGoSpec_heads_break rest [p] p [] rfl hb g hg
    · simp only [splitGoSpec, hb, if_false] at hg
      exact splitGoSpec_heads_break rest (cur ++ [p]) s0 (t0 ++ [p])
        (by rw [hcur]; rfl) hs0 g hg

theorem splitGoSpec_later_heads_break :
    ∀ (l cur : List PositionSample), ∀ g ∈ (splitGoSpec cur l).tail,
      ∃ s t, g = s :: t ∧ s.isBreakStart = true
  | [], cur => by
    intro g hg
    simp [splitGoSpec] at hg
  | p :: rest, cur => by
    intro g hg
    by_cases hb : p.isBreakStart = true
    · simp only [splitGoSpec, hb, if_true, List.tail_cons] at hg
      exact splitGoSpec_heads_break rest [p] p [] rfl hb g hg
    · simp only [splitGoSpec, hb, if_false] at hg
      exact splitGoSpec_later_heads_break rest (cur ++ [p]) g hg

theorem buildSegLoop_eq :
    ∀ (l curS : List PositionSample) (acc : List (List (Int × Int))),
      curS ≠ [] →
      buildSegLoop acc (curS.map samplePoint) l
        = acc ++ ((splitGoSpec curS l).filter
            (fun g => decide (1 < g.length))).map (List.map samplePoint)
  | [], curS, acc => by
    intro hc
    simp only [buildSegLoop, buildSegFinalize, splitGoSpec]
    by_cases hl : 1 < curS.length
    · rw [if_pos (by simpa using hl)]
      simp [List.filter, hl]
    · rw [if_neg (by simpa using hl)]
      simp [List.filter, hl]
  | p :: rest, curS, acc => by
    intro hc
    by_cases hb : p.isBreakStart = true
    · have hcons : buildSegLoop acc (curS.map samplePoint) (p :: rest)
          = buildSegLoop (buildSegFinalize acc (curS.map samplePoint))
              ([p].map samplePoint) rest := by
        simp [buildSegLoop, hb, hc]
      rw [hcons, buildSegLoop_eq rest [p] _ (by simp)]
      simp only [splitGoSpec, hb, if_true, buildSegFinalize]
      by_cases hl : 1 < curS.length
      · rw [if_pos (by simpa using hl)]
        simp [List.filter_cons, hl]
      · rw [if_neg (by simpa using hl)]
        simp [List.filter_cons, hl]
    · have hcons : buildSegLoop acc (curS.map samplePoint) (p :: rest)
          = buildSegLoop acc ((curS ++ [p]).map samplePoint) rest := by
        simp [buildSegLoop, hb]
      rw [hcons, buildSegLoop_eq rest (curS ++ [p]) acc (by simp)]
      simp [splitGoSpec, hb]

theorem buildSegments_eq (pts : List PositionSample) :
    buildSegments pts
      = ((splitAtBreaksSpec pts).filter (fun g => decide (1 < g.length))).map
          (List.map samplePoint) := by
  cases pts with
  | nil => rfl
  | cons p rest =>
      have h0 : buildSegLoop [] ([] : List (Int × Int)) (p :: rest)
          = buildSegLoop [] ([p].map samplePoint) rest := by
        simp [buildSegLoop]
      unfold buildSegments splitAtBreaksSpec
      rw [h0, buildSegLoop_eq rest [p] [] (by simp)]
      simp

/-- C4: the renderer partitions the snapshot by splitting exactly at samples
tagged `is_break_start = true` (except at the very first sample), discards
segments of length 1, and draws lines only between consecutive points within
one segment.  The segment list equals the spec-side split filtered to length
over 1; the split is a partition of the snapshot whose groups contain a break
tag only at their head (each group after the first starts with one), so no
drawn line joins a pre-break sample to a post-break sample. -/
theorem trajectory_C4 (pts : List PositionSample) (W H : Int) :
    buildSegments pts
        = ((splitAtBreaksSpec pts).filter (fun g => decide (1 < g.length))).map
            (List.map samplePoint)
    ∧ (splitAtBreaksSpec pts).flatten = pts
    ∧ (∀ g ∈ splitAtBreaksSpec pts, g ≠ [])
    ∧ (∀ g ∈ splitAtBreaksSpec pts, ∀ s ∈ g.tail, s.isBreakStart = false)
    ∧ (∀ g ∈ (splitAtBreaksSpec pts).tail,
        ∃ s t, g = s :: t ∧ s.isBreakStart = true)
    ∧ (∀ seg ∈ buildSegments pts, 2 ≤ seg.length)
    ∧ draw_smooth_trail W H pts
        = ((buildSegments pts).map (drawSegCalls W H)).flatten := by
  refine ⟨buildSegments_eq pts, ?_, ?_, ?_, ?_, ?_, ?_⟩
  · cases pts with
    | nil => rfl
    | cons p rest => simpa [splitAtBreaksSpec] using splitGoSpec_flatten rest [p]
  · cases pts with
    | nil => intro g hg; simp [splitAtBreaksSpec] at hg
    | cons p rest => exact fun g hg => splitGoSpec_ne_nil rest [p] (by simp) g hg
  · cases pts with
    | nil => intro g hg; simp [splitAtBreaksSpec] at hg
    | cons p rest =>
        exact fun g hg => splitGoSpec_tail_nonbreak rest [p] (by simp) g hg
  · cases pts with
    | nil => intro g hg; simp [splitAtBreaksSpec] at hg
    | cons p rest => exact fun g hg => splitGoSpec_later_heads_break rest [p] g hg
  · intro seg hseg
    rw [buildSegments_eq pts] at hseg
    rw [List.mem_map] at hseg
    obtain ⟨g, hgf, rfl⟩ := hseg
    rw [List.mem_filter] at hgf
    have hlen := of_decide_eq_true hgf.2
    simpa using hlen
  · by_cases h : pts.length < 2
    · have hseg : buildSegments pts = [] := by
        match pts, h with
        | [], _ => rfl
        | [p], _ => simp [buildSegments, buildSegLoop, buildSegFinalize]
      simp [draw_smooth_trail, h, hseg]
    · simp [draw_smooth_trail, h]

theorem trajectory_C4_witness :
    (∃ s t, ([mkSample (100, 100) 2 true, mkSample (102, 100) 3 false]
        : List PositionSample) = s :: t ∧ s.isBreakStart = true)
    ∧ 2 ≤ ([(10, 10), (12, 10)] : List (Int × Int)).length :=
  ⟨(trajectory_C4 demoPts 640 360).2.2.2.2.1 _ (by decide),
   (trajectory_C4 demoPts 640 360).2.2.2.2.2.1 _ (by decide)⟩

theorem smooth_window (seg : List (Int × Int)) (i : Nat) (h : i < seg.length) :
    (seg.drop (i - 2)).take (i + 1 - (i - 2)) = takeLast 3 (seg.take (i + 1)) := by
  unfold takeLast
  have h1 : (i - 2) + (i + 1 - (i - 2)) = i + 1 := by omega
  rw [List.length_take, List.take_drop, h1]
  have h2 : min (i + 1) seg.length - 3 = i - 2 := by omega
  rw [h2]

/-- C6: for every segment the renderer applies a causal moving-average
window of size 3: the smoothed sequence has exactly the raw length, its
element at index `i` is the truncated mean of the up-to-3 raw points ending
at index `i`, and in particular the first output equals the first raw
point. -/
theorem trajectory_C6 (seg : List (Int × Int)) :
    (smoothSeg seg).length = seg.length
    ∧ (∀ i, i < seg.length →
        (smoothSeg seg)[i]? = some (windowMean (takeLast 3 (seg.take (i + 1)))))
    ∧ (∀ p l', seg = p :: l' → (smoothSeg seg).head? = some p) := by
  have hget : ∀ i, i < seg.length →
      (smoothSeg seg)[i]? = some (windowMean (takeLast 3 (seg.take (i + 1)))) := by
    intro i h
    simp only [smoothSeg, List.getElem?_map, List.getElem?_range h, Option.map]
    rw [smoothPoint, smooth_window seg i h]
  refine ⟨by simp [smoothSeg], hget, ?_⟩
  intro p l' hseg
  rw [List.head?_eq_getElem?, hget 0 (by simp [hseg])]
  subst hseg
  simp [takeLast, windowMean, pyTruncDiv_one]

theorem trajectory_C6_witness :
    (smoothSeg demoSeg).head? = some (0, 0)
    ∧ (smoothSeg demoSeg)[3]?
        = some (windowMean (takeLast 3 (demoSeg.take 4))) :=
  ⟨(trajectory_C6 demoSeg).2.2 (0, 0) [(10, 0), (20, 0), (30, 0)] rfl,
   (trajectory_C6 demoSeg).2.1 3 (by decide)⟩

theorem nat_div_congr {a b a2 b2 : Nat} (hb : 0 < b) (hb2 : 0 < b2)
    (h : a * b2 = a2 * b) : a / b = a2 / b2 := by
  calc a / b = a * b2 / (b * b2) := (Nat.mul_div_mul_right a b hb2).symm
    _ = a2 * b / (b * b2) := by rw [h]
    _ = a2 * b / (b2 * b) := by rw [Nat.mul_comm b b2]
    _ = a2 / b2 := Nat.mul_div_mul_right a2 b2 hb

theorem band_cross_one {i t i2 t2 : Nat} (ht2 : 0 < t2)
    (h : (i + 1) * t2 = (i2 + 1) * t) (a b : Nat)
    (hlt : a * (i + 1) < b * t) : a * (i2 + 1) < b * t2 := by
  have h3 : a * (i + 1) * t2 < b * t * t2 := by
    exact Nat.mul_lt_mul_of_lt_of_le hlt (Nat.le_refl t2) ht2
  have h4 : a * (i + 1) * t2 = a * (i2 + 1) * t := by
    calc a * (i + 1) * t2 = a * ((i + 1) * t2) := by ring
      _ = a * ((i2 + 1) * t) := by rw [h]
      _ = a * (i2 + 1) * t := by ring
  have h5 : b * t * t2 = b * t2 * t := by ring
  rw [h4, h5] at h3
  exact Nat.lt_of_mul_lt_mul_right h3

theorem band_cross {i t i2 t2 : Nat} (ht : 0 < t) (ht2 : 0 < t2)
    (h : (i + 1) * t2 = (i2 + 1) * t) (a b : Nat) :
    a * (i + 1) < b * t ↔ a * (i2 + 1) < b * t2 :=
  ⟨band_cross_one ht2 h a b, band_cross_one ht h.symm a b⟩

theorem prog_div_congr {i t i2 t2 : Nat} (ht : 0 < t) (ht2 : 0 < t2)
    (h : (i + 1) * t2 = (i2 + 1) * t) (c1 c3 : Nat) (hc3 : 0 < c3) :
    c1 * (i + 1) / (c3 * t) = c1 * (i2 + 1) / (c3 * t2) := by
  apply nat_div_congr (Nat.mul_pos hc3 ht) (Nat.mul_pos hc3 ht2)
  calc c1 * (i + 1) * (c3 * t2) = c1 * c3 * ((i + 1) * t2) := by ring
    _ = c1 * c3 * ((i2 + 1) * t) := by rw [h]
    _ = c1 * (i2 + 1) * (c3 * t) := by ring

theorem fade_div_congr {i t i2 t2 : Nat} (ht : 0 < t) (ht2 : 0 < t2)
    (h : (i + 1) * t2 = (i2 + 1) * t) (c1 c2 c3 : Nat) (hc3 : 0 < c3) :
    (c1 * (i + 1) - c2 * t) / (c3 * t)
      = (c1 * (i2 + 1) - c2 * t2) / (c3 * t2) := by
  apply nat_div_congr (Nat.mul_pos hc3 ht) (Nat.mul_pos hc3 ht2)
  rw [Nat.sub_mul, Nat.sub_mul]
  have e1 : c1 * (i + 1) * (c3 * t2) = c1 * (i2 + 1) * (c3 * t) := by
    calc c1 * (i + 1) * (c3 * t2) = c1 * c3 * ((i + 1) * t2) := by ring
      _ = c1 * c3 * ((i2 + 1) * t) := by rw [h]
      _ = c1 * (i2 + 1) * (c3 * t) := by ring
  have e2 : c2 * t * (c3 * t2) = c2 * t2 * (c3 * t) := by ring
  rw [e1, e2]

/-- C7: along each drawn segment the colour is a function of normalized
progress alone, selected through three bands with fixed transitions at 30%
and 70% of the segment, and the thickness is monotonically non-decreasing in
progress, equal to 2 on the first edge and 5 (≈6, `int(2 + 4*progress)` with
`progress < 1`) on the last edge of segments with at least 5 points, and
always within `[2, 5]`. -/
theorem trajectory_C7 :
    (∀ i t i2 t2, 0 < t → 0 < t2 → (i + 1) * t2 = (i2 + 1) * t →
        edgeColor i t = edgeColor i2 t2 ∧ bandIndex i t = bandIndex i2 t2)
    ∧ (∀ i t,
        (bandIndex i t = 0 ∧ edgeColor i t = bandColor0 i t
            ∧ 10 * (i + 1) < 3 * t)
        ∨ (bandIndex i t = 1 ∧ edgeColor i t = bandColor1 i t
            ∧ 3 * t ≤ 10 * (i + 1) ∧ 10 * (i + 1) < 7 * t)
        ∨ (bandIndex i t = 2 ∧ edgeColor i t = bandColor2 i t
            ∧ 7 * t ≤ 10 * (i + 1)))
    ∧ (∀ i t, edgeThickness i t ≤ edgeThickness (i + 1) t)
    ∧ (∀ i t, 0 < t → 2 ≤ edgeThickness i t)
    ∧ (∀ i t, 0 < t → i + 2 ≤ t → edgeThickness i t ≤ 5)
    ∧ (∀ t, 5 ≤ t → edgeThickness 0 t = 2 ∧ edgeThickness (t - 2) t = 5) := by
  refine ⟨?_, ?_, ?_, ?_, ?_, ?_⟩
  · intro i t i2 t2 ht ht2 h
    have hb3 := band_cross ht ht2 h 10 3
    have hb7 := band_cross ht ht2 h 10 7
    constructor
    · unfold edgeColor
      by_cases h3 : 10 * (i + 1) < 3 * t
      · rw [if_pos h3, if_pos (hb3.mp h3)]
        unfold bandColor0
        rw [prog_div_congr ht ht2 h 2000 3 (by omega),
          prog_div_congr ht ht2 h 1000 3 (by omega),
          prog_div_congr ht ht2 h 500 3 (by omega)]
      · rw [if_neg h3, if_neg (fun hh => h3 (hb3.mpr hh))]
        by_cases h7 : 10 * (i + 1) < 7 * t
        · rw [if_pos h7, if_pos (hb7.mp h7)]
          unfold bandColor1
          rw [fade_div_congr ht ht2 h 1000 300 4 (by omega),
            fade_div_congr ht ht2 h 500 150 4 (by omega),
            fade_div_congr ht ht2 h 790 237 4 (by omega)]
        · rw [if_neg h7, if_neg (fun hh => h7 (hb7.mpr hh))]
          unfold bandColor2
          rw [fade_div_congr ht ht2 h 2550 1785 3 (by omega),
            fade_div_congr ht ht2 h 890 623 3 (by omega)]
    · unfold bandIndex
      by_cases h3 : 10 * (i + 1) < 3 * t
      · rw [if_pos h3, if_pos (hb3.mp h3)]
      · rw [if_neg h3, if_neg (fun hh => h3 (hb3.mpr hh))]
        by_cases h7 : 10 * (i + 1) < 7 * t
        · rw [if_pos h7, if_pos (hb7.mp h7)]
        · rw [if_neg h7, if_neg (fun hh => h7 (hb7.mpr hh))]
  · intro i t
    unfold bandIndex edgeColor
    by_cases h3 : 10 * (i + 1) < 3 * t
    · exact Or.inl ⟨if_pos h3, if_pos h3, h3⟩
    · by_cases h7 : 10 * (i + 1) < 7 * t
      · refine Or.inr (Or.inl ⟨?_, ?_, by omega, h7⟩) <;>
          rw [if_neg h3, if_pos h7]
      · refine Or.inr (Or.inr ⟨?_, ?_, by omega⟩) <;>
          rw [if_neg h3, if_neg h7]
  · intro i t
    unfold edgeThickness
    exact max_le_max (Nat.le_refl 1) (Nat.div_le_div_right (by omega))
  · intro i t ht
    unfold edgeThickness
    have h2 : 2 ≤ (2 * t + 4 * (i + 1)) / t :=
      (Nat.le_div_iff_mul_le ht).mpr (by omega)
    omega
  · intro i t ht hit
    unfold edgeThickness
    have h6 : (2 * t + 4 * (i + 1)) / t < 6 :=
      (Nat.div_lt_iff_lt_mul ht).mpr (by omega)
    omega
  · intro t ht
    constructor
    · unfold edgeThickness
      have : (2 * t + 4 * (0 + 1)) / t = 2 :=
        Nat.div_eq_of_lt_le (by omega) (by omega)
      omega
    · unfold edgeThickness
      have he : 2 * t + 4 * (t - 2 + 1) = 6 * t - 4 := by omega
      rw [he]
      have : (6 * t - 4) / t = 5 :=
        Nat.div_eq_of_lt_le (by omega) (by omega)
      omega

theorem trajectory_C7_witness :
    edgeColor 1 10 = edgeColor 3 20
    ∧ edgeThickness 0 10 = 2
    ∧ edgeThickness 8 10 = 5
    ∧ 2 ≤ edgeThickness 4 10
    ∧ edgeThickness 4 10 ≤ 5 :=
  ⟨(trajectory_C7.1 1 10 3 20 (by decide) (by decide) (by decide)).1,
   (trajectory_C7.2.2.2.2.2 10 (by decide)).1,
   (trajectory_C7.2.2.2.2.2 10 (by decide)).2,
   trajectory_C7.2.2.2.1 4 10 (by decide),
   trajectory_C7.2.2.2.2.1 4 10 (by decide) (by decide)⟩

theorem segMainCalls_inBounds (W H : Int) (sm : List (Int × Int)) :
    ∀ c ∈ segMainCalls W H sm,
      inBounds W H c.p1 = true ∧ inBounds W H c.p2 = true := by
  intro c hc
  unfold segMainCalls at hc
  rw [List.mem_filterMap] at hc
  obtain ⟨i, hi, hmatch⟩ := hc
  cases h1 : sm.get? i with
  | none => rw [h1] at hmatch; simp at hmatch
  | some q1 =>
      cases h2 : sm.get? (i + 1) with
      | none => rw [h1, h2] at hmatch; simp at hmatch
      | some q2 =>
          rw [h1, h2] at hmatch
          dsimp only at hmatch
          by_cases hb : (inBounds W H q1 && inBounds W H q2) = true
          · rw [if_pos hb] at hmatch
            rw [Bool.and_eq_true] at hb
            cases hmatch
            exact ⟨hb.1, hb.2⟩
          · rw [if_neg hb] at hmatch
            simp at hmatch

theorem segHighlightCalls_inBounds (W H : Int) (sm : List (Int × Int)) :
    ∀ c ∈ segHighlightCalls W H sm,
      inBounds W H c.p1 = true ∧ inBounds W H c.p2 = true := by
  intro c hc
  unfold segHighlightCalls at hc
  by_cases h5 : 5 < sm.length
  · rw [if_pos h5] at hc
    rw [List.mem_flatten] at hc
    obtain ⟨l', hl', hcl⟩ := hc
    rw [List.mem_map] at hl'
    obtain ⟨i, hi, rfl⟩ := hl'
    cases h1 : (takeLast 5 sm).get? i with
    | none => rw [h1] at hcl; simp at hcl
    | some q1 =>
        cases h2 : (takeLast 5 sm).get? (i + 1) with
        | none => rw [h1, h2] at hcl; simp at hcl
        | some q2 =>
            rw [h1, h2] at hcl
            dsimp only at hcl
            by_cases hb : (inBounds W H q1 && inBounds W H q2) = true
            · rw [if_pos hb] at hcl
              rw [Bool.and_eq_true] at hb
              simp only [List.mem_cons, List.not_mem_nil, or_false] at hcl
              rcases hcl with rfl | rfl
              · exact ⟨hb.1, hb.2⟩
              · exact ⟨hb.1, hb.2⟩
            · rw [if_neg hb] at hcl
              simp at hcl
  · rw [if_neg h5] at hc
    simp at hc

theorem draw_calls_inBounds (W H : Int) (pts : List PositionSample) :
    ∀ c ∈ draw_smooth_trail W H pts,
      inBounds W H c.p1 = true ∧ inBounds W H c.p2 = true := by
  intro c hc
  unfold draw_smooth_trail at hc
  by_cases h : pts.length < 2
  · rw [if_pos h] at hc
    simp at hc
  · rw [if_neg h] at hc
    rw [List.mem_flatten] at hc
    obtain ⟨l', hl', hcl⟩ := hc
    rw [List.mem_map] at hl'
    obtain ⟨seg, hseg, rfl⟩ := hl'
    unfold drawSegCalls at hcl
    by_cases hlen : seg.length < 2
    · rw [if_pos hlen] at hcl
      simp at hcl
    · rw [if_neg hlen] at hcl
      rw [List.mem_append] at hcl
      rcases hcl with hcl | hcl
      · exact segMainCalls_inBounds W H _ c hcl
      · exact segHighlightCalls_inBounds W H _ c hcl

/-- C5 counterexample: the `except (IndexError, ValueError)` handler sits in
`update_display` around the single `draw_smooth_trail` call, not around each
segment.  The demo tick makes two `cv2.line` calls: call index 0 is the
first segment's line (`demoFirstCall`) and the second segment's only line is
`demoLostCall`.  A `ValueError` injected at call index 0 — a failure while
drawing the FIRST segment — is caught and the tick completes, but nothing at
all is drawn: in particular the remaining second segment's line
`demoLostCall`, which a fault-free tick draws (and which per-segment
catching would still draw), is lost.  This contradicts "the remaining
segments of that tick are still drawn".  An exception of another class
(`otherError`, e.g. `cv2.error`) injected at the same call escapes
`update_display`, contradicting "no drawing error propagates out of
update_display". -/
theorem trajectory_C5_counterexample :
    (demoWidget.update_display (some (0, PyError.valueError))).raised = none
    ∧ (demoWidget.update_display (some (0, PyError.valueError))).frameShown
        = true
    ∧ buildSegments demoWidget.trajectory_manager.get_trajectory_copy
        = [[(10, 10), (12, 10)], [(100, 100), (102, 100)]]
    ∧ (draw_smooth_trail 640 360
        demoWidget.trajectory_manager.get_trajectory_copy)[0]?
        = some demoFirstCall
    ∧ demoFirstCall ∈ drawSegCalls 640 360 [(10, 10), (12, 10)]
    ∧ demoLostCall ∈ drawSegCalls 640 360 [(100, 100), (102, 100)]
    ∧ demoFirstCall ≠ demoLostCall
    ∧ demoLostCall
        ∈ draw_smooth_trail 640 360 demoWidget.trajectory_manager.get_trajectory_copy
    ∧ (demoWidget.update_display (some (0, PyError.valueError))).drawnCalls = []
    ∧ demoLostCall
        ∉ (demoWidget.update_display (some (0, PyError.valueError))).drawnCalls
    ∧ (demoWidget.update_display (some (0, PyError.otherError))).raised
        = some PyError.otherError := by
  decide

/-- C5 (amended): `IndexError`/`ValueError` during trail drawing is caught
once per tick around the whole `draw_smooth_trail` call, so it never escapes
`update_display` and the tick still completes, but drawing of the remaining
lines and segments of that tick is abandoned (the calls already made stay
composited); any other exception class escapes the handler.  Out-of-bounds
coordinates never raise at all: every line is bounds-checked individually
and silently skipped, so every call that reaches the image is in bounds. -/
theorem trajectory_C5 (w : RobotTrajectoryWidget) (k : Nat) (e : PyError) :
    (isCaught e = true → (w.update_display (some (k, e))).raised = none)
    ∧ (isCaught e = true →
        (w.update_display (some (k, e))).frameShown = w.has_base_frame)
    ∧ (w.has_base_frame = true → w.drawing_enabled = true →
        w.trajectory_manager.get_trajectory_copy ≠ [] →
        k < (draw_smooth_trail w.image_width w.image_height
              w.trajectory_manager.get_trajectory_copy).length →
        (w.update_display (some (k, e))).drawnCalls
          = (draw_smooth_trail w.image_width w.image_height
              w.trajectory_manager.get_trajectory_copy).take k)
    ∧ (w.update_display none).raised = none
    ∧ (w.has_base_frame = true → w.drawing_enabled = true →
        w.trajectory_manager.get_trajectory_copy ≠ [] →
        (w.update_display none).drawnCalls
          = draw_smooth_trail w.image_width w.image_height
              w.trajectory_manager.get_trajectory_copy)
    ∧ (∀ fault, ∀ c ∈ (w.update_display fault).drawnCalls,
        inBounds w.image_width w.image_height c.p1 = true
        ∧ inBounds w.image_width w.image_height c.p2 = true)
    ∧ (isCaught e = false → w.has_base_frame = true → w.drawing_enabled = true →
        w.trajectory_manager.get_trajectory_copy ≠ [] →
        k < (draw_smooth_trail w.image_width w.image_height
              w.trajectory_manager.get_trajectory_copy).length →
        (w.update_display (some (k, e))).raised = some e
        ∧ (w.update_display (some (k, e))).frameShown = false) := by
  have hdrawn : ∀ fault, ∀ c ∈ (w.update_display fault).drawnCalls,
      c ∈ draw_smooth_trail w.image_width w.image_height
        w.trajectory_manager.get_trajectory_copy := by
    intro fault c hc
    unfold RobotTrajectoryWidget.update_display at hc
    by_cases hbase : w.has_base_frame = false
    · simp [hbase] at hc
    · rw [if_neg hbase] at hc
      by_cases hcond : (w.drawing_enabled
          && !w.trajectory_manager.get_trajectory_copy.isEmpty) = true
      · rw [if_pos hcond] at hc
        cases fault with
        | none => exact hc
        | some ke =>
            obtain ⟨k2, e2⟩ := ke
            dsimp only at hc
            by_cases hk : k2 < (draw_smooth_trail w.image_width w.image_height
                w.trajectory_manager.get_trajectory_copy).length
            · rw [if_pos hk] at hc
              by_cases hce : isCaught e2 = true
              · rw [if_pos hce] at hc
                exact List.mem_of_mem_take hc
              · rw [if_neg hce] at hc
                exact List.mem_of_mem_take hc
            · rw [if_neg hk] at hc
              exact hc
      · rw [if_neg hcond] at hc
        simp at hc
  refine ⟨?_, ?_, ?_, ?_, ?_, ?_, ?_⟩
  · intro hce
    unfold RobotTrajectoryWidget.update_display
    by_cases hbase : w.has_base_frame = false
    · simp [hbase]
    · rw [if_neg hbase]
      by_cases hcond : (w.drawing_enabled
          && !w.trajectory_manager.get_trajectory_copy.isEmpty) = true
      · rw [if_pos hcond]
        dsimp only
        by_cases hk : k < (draw_smooth_trail w.image_width w.image_height
            w.trajectory_manager.get_trajectory_copy).length
        · rw [if_pos hk, if_pos hce]
        · rw [if_neg hk]
      · rw [if_neg hcond]
  · intro hce
    unfold RobotTrajectoryWidget.update_display
    by_cases hbase : w.has_base_frame = false
    · simp [hbase]
    · rw [if_neg hbase]
      have hbt : w.has_base_frame = true := by
        cases h : w.has_base_frame
        · exact absurd h hbase
        · rfl
      rw [hbt]
      by_cases hcond : (w.drawing_enabled
          && !w.trajectory_manager.get_trajectory_copy.isEmpty) = true
      · rw [if_pos hcond]
        dsimp only
        by_cases hk : k < (draw_smooth_trail w.image_width w.image_height
            w.trajectory_manager.get_trajectory_copy).length
        · rw [if_pos hk, if_pos hce]
        · rw [if_neg hk]
      · rw [if_neg hcond]
  · intro hbase hdraw hne hk
    unfold RobotTrajectoryWidget.update_display
    rw [if_neg (by simp [hbase])]
    have hcond : (w.drawing_enabled
        && !w.trajectory_manager.get_trajectory_copy.isEmpty) = true := by
      simp [hdraw, hne]
    rw [if_pos hcond]
    dsimp only
    rw [if_pos hk]
    by_cases hce : isCaught e = true
    · rw [if_pos hce]
    · rw [if_neg hce]
  · unfold RobotTrajectoryWidget.update_display
    by_cases hbase : w.has_base_frame = false
    · simp [hbase]
    · rw [if_neg hbase]
      by_cases hcond : (w.drawing_enabled
          && !w.trajectory_manager.get_trajectory_copy.isEmpty) = true
      · rw [if_pos hcond]
      · rw [if_neg hcond]
  · intro hbase hdraw hne
    unfold RobotTrajectoryWidget.update_display
    rw [if_neg (by simp [hbase])]
    have hcond : (w.drawing_enabled
        && !w.trajectory_manager.get_trajectory_copy.isEmpty) = true := by
      simp [hdraw, hne]
    rw [if_pos hcond]
  · intro fault c hc
    exact draw_calls_inBounds w.image_width w.image_height
      w.trajectory_manager.get_trajectory_copy c (hdrawn fault c hc)
  · intro hce hbase hdraw hne hk
    unfold RobotTrajectoryWidget.update_display
    rw [if_neg (by simp [hbase])]
    have hcond : (w.drawing_enabled
        && !w.trajectory_manager.get_trajectory_copy.isEmpty) = true := by
      simp [hdraw, hne]
    rw [if_pos hcond]
    dsimp only
    rw [if_pos hk, if_neg (by simp [hce])]
    exact ⟨rfl, rfl⟩

theorem trajectory_C5_witness :
    (demoWidget.update_display (some (0, PyError.indexError))).raised = none
    ∧ (demoWidget.update_display (some (0, PyError.indexError))).drawnCalls
        = (draw_smooth_trail demoWidget.image_width demoWidget.image_height
            demoWidget.trajectory_manager.get_trajectory_copy).take 0
    ∧ (demoWidget.update_display (some (0, PyError.otherError))).raised
        = some PyError.otherError :=
  ⟨(trajectory_C5 demoWidget 0 PyError.indexError).1 (by decide),
   (trajectory_C5 demoWidget 0 PyError.indexError).2.2.1 (by decide)
     (by decide) (by decide) (by decide),
   ((trajectory_C5 demoWidget 0 PyError.otherError).2.2.2.2.2.2 (by decide)
     (by decide) (by decide) (by decide) (by decide)).1⟩

/-- C9: rendering an empty or single-point snapshot performs no drawing and
does not raise, and a display tick with no background image set does nothing
at all: no frame shown, no line drawn, no exception, regardless of any
injected drawing fault. -/
theorem trajectory_C9 (W H : Int) (s : PositionSample)
    (w : RobotTrajectoryWidget) (fault : Option (Nat × PyError)) :
    draw_smooth_trail W H [] = []
    ∧ draw_smooth_trail W H [s] = []
    ∧ (w.has_base_frame = false →
        w.update_display fault = ⟨false, [], none⟩)
    ∧ (w.has_base_frame = true →
        w.trajectory_manager.get_trajectory_copy.length < 2 →
        (w.update_display fault).raised = none
        ∧ (w.update_display fault).drawnCalls = []) := by
  refine ⟨rfl, rfl, ?_, ?_⟩
  · intro hbase
    unfold RobotTrajectoryWidget.update_display
    rw [if_pos hbase]
  · intro hbase hshort
    have hdraw : draw_smooth_trail w.image_width w.image_height
        w.trajectory_manager.get_trajectory_copy = [] := by
      unfold draw_smooth_trail
      rw [if_pos hshort]
    unfold RobotTrajectoryWidget.update_display
    rw [if_neg (by simp [hbase])]
    by_cases hcond : (w.drawing_enabled
        && !w.trajectory_manager.get_trajectory_copy.isEmpty) = true
    · rw [if_pos hcond]
      cases fault with
      | none => rw [hdraw]; exact ⟨rfl, rfl⟩
      | some ke =>
          obtain ⟨k2, e2⟩ := ke
          dsimp only
          rw [if_neg (by rw [hdraw]; simp)]
          rw [hdraw]
          exact ⟨rfl, rfl⟩
    · rw [if_neg hcond]
      exact ⟨rfl, rfl⟩

theorem trajectory_C9_witness :
    demoNoFrameWidget.update_display none = ⟨false, [], none⟩
    ∧ (demoShortWidget.update_display (some (0, PyError.otherError))).raised
        = none :=
  ⟨(trajectory_C9 640 360 (mkSample (0, 0) 0 true) demoNoFrameWidget
      none).2.2.1 rfl,
   ((trajectory_C9 640 360 (mkSample (0, 0) 0 true) demoShortWidget
      (some (0, PyError.otherError))).2.2.2 rfl (by decide)).1⟩
